import Mathlib

/-!
Verification development for `StardewValleyModUpdater.py`, a sequential
mod-updater script.  The script is shallowly embedded: Python strings are
`List Char`, the network is an oracle (`World`) mapping request URLs to
outcomes, side effects (log lines, HTTP requests, zip extraction, the
wipe of the managed mods directory) are recorded as an event trace, and a
Python exception that escapes a function is an `Option Exc` paired with
the events emitted before the raise.  The filesystem under the managed
mods root is an association list from mod name to the list of extracted
files, updated by an interpreter over the event trace.
-/

/-- A Python string, modelled as its list of characters. -/
abbrev Str : Type := List Char

/-- Exceptions that can escape the script's functions.
`urlError` models `urllib.error.URLError` raised on a transport failure
(connection refused, DNS failure, ...) — NOT a subclass match for the
`except urllib.error.HTTPError` handlers in the script.
`jsonDecodeError` models `json.loads` failing on a non-JSON body;
`keyError` models a missing dictionary key (`releases["assets"]`,
`asset["name"]`, `asset["browser_download_url"]`, or a missing manifest
key in `main`); `fileError` models `open` failing because `mods.yaml` is
absent; `yamlError` models `yaml.safe_load` failing on a malformed
manifest. -/
inductive Exc where
  | urlError
  | jsonDecodeError
  | keyError
  | fileError
  | yamlError
  deriving DecidableEq, Repr

/-- What extracting the downloaded file yields: a valid archive holding a
list of member files, or a corrupt/absent file on which
`zipfile.ZipFile`/`extractall` raises. -/
inductive ZipData where
  | valid (files : List Str)
  | corrupt
  deriving DecidableEq, Repr

/-- Outcome of `urllib.request.urlretrieve(zipUrl, ...)`:
success writing the file, an `urllib.error.HTTPError` (non-2xx status),
or a transport error that raises a non-`HTTPError` exception. -/
inductive DownloadOutcome where
  | ok (zip : ZipData)
  | httpError
  | transportError
  deriving DecidableEq, Repr

/-- A release asset as it appears in the parsed JSON: a Python dict whose
`"name"` and `"browser_download_url"` keys may each be absent (`none`). -/
structure RawAsset where
  name : Option Str
  browser_download_url : Option Str
  deriving DecidableEq, Repr

/-- Shape of the latest-release response body once the HTTP request has
succeeded: not JSON at all, JSON without an `"assets"` key, or JSON with
an `"assets"` list. -/
inductive ReleaseBody where
  | invalidJson
  | missingAssets
  | withAssets (assets : List RawAsset)
  deriving DecidableEq, Repr

/-- Outcome of `urllib.request.urlopen(releaseUrl)` plus body read:
a body, an `urllib.error.HTTPError` carrying its status code, or a
transport error raising a non-`HTTPError` exception. -/
inductive ReleaseOutcome where
  | ok (body : ReleaseBody)
  | httpError (code : Nat)
  | transportError
  deriving DecidableEq, Repr

/-- The network oracle: what each URL answers on this run. -/
structure World where
  release : Str → ReleaseOutcome
  download : Str → DownloadOutcome

/-- Observable events of a run, in order. `logLine m s` is
`log(modName, str)` printing `[m]: s`; `printLine names` is the
`"Detecting the following mods: ..."` print in `main`; `getRelease u` and
`getZip u` are the two HTTP requests; `wipeModsDir` is the
`shutil.rmtree` + `os.makedirs` reset of the managed directory;
`extractInto m files` is a successful `extractall` into
`MODS_DIR/m`. -/
inductive Event where
  | logLine (modName msg : Str)
  | printLine (names : List Str)
  | getRelease (url : Str)
  | getZip (url : Str)
  | wipeModsDir
  | extractInto (modName : Str) (files : List Str)
  deriving DecidableEq, Repr

/-- Result of running one of the script's functions: the events it
emitted, and `some e` when exception `e` escaped it. -/
abbrev Run : Type := List Event × Option Exc

def downloadingMsg : Str := "Downloading mod...".data

def downloadFailMsg : Str := "Unable to download mod zip".data

def extractFailMsg : Str := "Unable to extract mod zip".data

def completeMsg : Str := "Installation complete.".data

def msg404 : Str := "Repo is no longer hosting releases.".data

def unreachableMsg : Str := "Unable to reach GitHub".data

def noAssetMsg : Str := "Assets do not contain expected zip file.".data

/-- `name == f"{modName}.zip"` (line 75 of the script). -/
def isExactAssetName (modName name : Str) : Bool :=
  name == modName ++ ".zip".data

/-- `name.startswith(f"{modName}.") and name.endswith(".zip")`
(lines 76-78 of the script). -/
def isAssetNameWithVersion (modName name : Str) : Bool :=
  (modName ++ ".".data).isPrefixOf name && (".zip".data).isSuffixOf name

/-- The asset-acceptance test `isExactAssetName or isAssetNameWithVersion`
(line 80 of the script). -/
def matchesAsset (modName name : Str) : Bool :=
  isExactAssetName modName name || isAssetNameWithVersion modName name

/-- The `for asset in releases["assets"]` loop of
`installLatestGitHubRelease` (lines 72-81): reads `asset["name"]`
(raising `KeyError` when absent), tests the name, and on a match reads
`asset["browser_download_url"]` (raising `KeyError` when absent) into the
`assetUrl` accumulator, overwriting any earlier match. -/
def assetSearch (modName : Str) : List RawAsset → Option Str → Except Exc (Option Str)
  | [], acc => .ok acc
  | a :: rest, acc =>
    match a.name with
    | none => .error .keyError
    | some name =>
      if matchesAsset modName name then
        match a.browser_download_url with
        | none => .error .keyError
        | some url => assetSearch modName rest (some url)
      else
        assetSearch modName rest acc

/-- A release asset whose `"name"` and `"browser_download_url"` keys are
both present, for stating properties of the selection loop on well-formed
asset lists. -/
structure Asset where
  name : Str
  browser_download_url : Str
  deriving DecidableEq, Repr

/-- View a well-formed asset as the raw dict the loop consumes. -/
def Asset.toRaw (a : Asset) : RawAsset :=
  ⟨some a.name, some a.browser_download_url⟩

/-- `installFromZipUrl(modName, zipUrl)` (lines 36-53): logs, downloads
`zipUrl` to a fresh temporary file, and extracts it into
`MODS_DIR/modName`.  The download `try` catches ONLY
`urllib.error.HTTPError` (logging `downloadFailMsg` and falling through
to the extraction attempt); a transport error escapes the function.  The
extraction `try` has a bare `except:` catching everything — in the
`HTTPError` case the temporary file was never created, so opening it
raises `FileNotFoundError`, which that bare `except` catches, logging
`extractFailMsg` and returning.  On successful extraction the function
logs `completeMsg`. -/
def installFromZipUrl (w : World) (modName zipUrl : Str) : Run :=
  let evs0 : List Event := [.logLine modName downloadingMsg, .getZip zipUrl]
  match w.download zipUrl with
  | .transportError => (evs0, some .urlError)
  | .httpError =>
    (evs0 ++ [.logLine modName downloadFailMsg, .logLine modName extractFailMsg], none)
  | .ok .corrupt =>
    (evs0 ++ [.logLine modName extractFailMsg], none)
  | .ok (.valid files) =>
    (evs0 ++ [.extractInto modName files, .logLine modName completeMsg], none)

/-- The `f"https://api.github.com/repos/{modRepo}/releases/latest"` URL
(line 57 of the script). -/
def releaseUrlOf (modRepo : Str) : Str :=
  "https://api.github.com/repos/".data ++ modRepo ++ "/releases/latest".data

/-- `installLatestGitHubRelease(modName, modRepo)` (lines 56-87): queries
the latest-release endpoint.  The `try` around `urlopen` catches ONLY
`urllib.error.HTTPError`: code 404 logs `msg404`, any other code logs
`unreachableMsg`, and either way the function returns; a transport error
escapes.  On a 2xx response, `json.loads` raises on a non-JSON body and
`releases["assets"]` raises `KeyError` when absent — both uncaught.  The
asset loop (`assetSearch`) either raises `KeyError` (uncaught), finds no
match (log `noAssetMsg`, return), or yields the last matching asset's
URL, which is handed to `installFromZipUrl`. -/
def installLatestGitHubRelease (w : World) (modName modRepo : Str) : Run :=
  let releaseUrl := releaseUrlOf modRepo
  let evs0 : List Event := [.getRelease releaseUrl]
  match w.release releaseUrl with
  | .transportError => (evs0, some .urlError)
  | .httpError code =>
    if code == 404 then (evs0 ++ [.logLine modName msg404], none)
    else (evs0 ++ [.logLine modName unreachableMsg], none)
  | .ok .invalidJson => (evs0, some .jsonDecodeError)
  | .ok .missingAssets => (evs0, some .keyError)
  | .ok (.withAssets assets) =>
    match assetSearch modName assets none with
    | .error e => (evs0, some e)
    | .ok none => (evs0 ++ [.logLine modName noAssetMsg], none)
    | .ok (some assetUrl) =>
      match installFromZipUrl w modName assetUrl with
      | (evs1, exc) => (evs0 ++ evs1, exc)

/-- A `for modName in mapping:` loop over (name, value) entries in
insertion order, calling `f` on each; an exception raised by `f` escapes
the loop at once, so later entries are not processed. -/
def runSeq (f : Str → Str → Run) : List (Str × Str) → Run
  | [] => ([], none)
  | (m, x) :: rest =>
    match f m x with
    | (evs, some e) => (evs, some e)
    | (evs, none) =>
      match runSeq f rest with
      | (evs2, exc2) => (evs ++ evs2, exc2)

/-- The parsed manifest as `main` consumes it: each expected top-level
key is `none` when absent (so that `config["githubReleaseMods"]` /
`config["mirrorMods"]` raise `KeyError`), and otherwise a mapping in
insertion order from mod name to `"owner/repo"` (resp. zip URL). -/
structure Config where
  githubReleaseMods : Option (List (Str × Str))
  mirrorMods : Option (List (Str × Str))

/-- Outcome of `loadConfig()` (lines 25-29): `open` raises when
`mods.yaml` is absent, `yaml.safe_load` raises on a malformed document,
otherwise the parsed configuration is returned. -/
inductive ConfigOutcome where
  | fileMissing
  | parseError
  | ok (config : Config)

/-- `main()` (lines 90-112): load the manifest (a load failure escapes),
build `completeModList` from the two mappings (a missing key raises
`KeyError` before anything is printed or deleted), print the list, wipe
and recreate the managed mods directory, then run the two install loops
strictly sequentially — GitHub-release mods first, mirror mods second.
No exception handler exists in `main`, so any exception raised below it
escapes (Python then terminates the process with a non-zero status). -/
def Script.main (w : World) (cfg : ConfigOutcome) : Run :=
  match cfg with
  | .fileMissing => ([], some .fileError)
  | .parseError => ([], some .yamlError)
  | .ok c =>
    match c.githubReleaseMods with
    | none => ([], some .keyError)
    | some githubMods =>
      match c.mirrorMods with
      | none => ([], some .keyError)
      | some mirrorMods =>
        let completeModList := githubMods.map Prod.fst ++ mirrorMods.map Prod.fst
        let evs0 : List Event := [.printLine completeModList, .wipeModsDir]
        match runSeq (fun m r => installLatestGitHubRelease w m r) githubMods with
        | (evs1, some e) => (evs0 ++ evs1, some e)
        | (evs1, none) =>
          match runSeq (fun m u => installFromZipUrl w m u) mirrorMods with
          | (evs2, exc2) => (evs0 ++ evs1 ++ evs2, exc2)

/-- Contents of the managed mods root `MODS_DIR`: per mod-name
subdirectory, the list of files extracted into it. -/
abbrev Fs : Type := List (Str × List Str)

/-- `extractall` into `MODS_DIR/m`: creates the subdirectory if needed
and adds the archive members to it (pre-existing files remain). -/
def addFiles : Fs → Str → List Str → Fs
  | [], m, files => [(m, files)]
  | (m0, fs0) :: rest, m, files =>
    if m0 == m then (m0, fs0 ++ files) :: rest
    else (m0, fs0) :: addFiles rest m files

/-- Effect of one event on the managed mods root: the wipe (lines
100-102) deletes the tree and recreates it empty; a successful
extraction adds files under the mod's subdirectory; logging, printing
and HTTP requests leave it untouched. -/
def applyEvent (fs : Fs) : Event → Fs
  | .wipeModsDir => []
  | .extractInto m files => addFiles fs m files
  | _ => fs

/-- Replay an event trace over an initial managed-directory state. -/
def runEvents (fs : Fs) (evs : List Event) : Fs :=
  evs.foldl applyEvent fs

/-- The subdirectory of the managed root for mod `m`, when present. -/
def modDir (fs : Fs) (m : Str) : Option (List Str) :=
  match fs with
  | [] => none
  | (m0, fs0) :: rest => if m0 == m then some fs0 else modDir rest m

/-- A populated installation directory exists for mod `m`. -/
def populated (fs : Fs) (m : Str) : Bool :=
  match modDir fs m with
  | some (_ :: _) => true
  | _ => false

/-- The log messages that report a per-mod failure (as opposed to the
progress messages `downloadingMsg` and `completeMsg`). -/
def failureMsgs : List Str :=
  [downloadFailMsg, extractFailMsg, msg404, unreachableMsg, noAssetMsg]

/-- The trace contains a failure log line for mod `m`. -/
def hasFailureLog (evs : List Event) (m : Str) : Bool :=
  evs.any fun e =>
    match e with
    | .logLine m0 msg => m0 == m && failureMsgs.contains msg
    | _ => false

/-- Events emitted by the install phase of a run: anything but the
orchestrator's own `printLine` and `wipeModsDir`. -/
def installPhaseEvent : Event → Bool
  | .printLine _ => false
  | .wipeModsDir => false
  | _ => true

/-- The per-mod guarantee behind the spec's "never silent omission":
after a mod's install ran, its trace either holds a successful extraction
of a non-empty archive, or a failure log line for the mod, or a
successful extraction of an EMPTY archive (the silent case). -/
def goodOutcome (m : Str) (evs : List Event) : Prop :=
  (∃ files, files ≠ [] ∧ Event.extractInto m files ∈ evs) ∨
  hasFailureLog evs m = true ∨
  Event.extractInto m [] ∈ evs

/-- A run whose release endpoint answers HTTP 404 everywhere. -/
def wRelease404 : World :=
  ⟨fun _ => .httpError 404, fun _ => .httpError⟩

/-- A run whose release endpoint fails with a transport error (a
non-`HTTPError` exception) everywhere. -/
def wReleaseTransportFail : World :=
  ⟨fun _ => .transportError, fun _ => .httpError⟩

/-- A run whose zip downloads all fail with an `HTTPError`. -/
def wHttpDownloadFail : World :=
  ⟨fun _ => .httpError 500, fun _ => .httpError⟩

/-- A run whose zip downloads all fail with a transport error (a
non-`HTTPError` exception). -/
def wDownloadTransportFail : World :=
  ⟨fun _ => .httpError 500, fun _ => .transportError⟩

/-- A run whose release endpoint answers 200 with a non-JSON body. -/
def wInvalidJson : World :=
  ⟨fun _ => .ok .invalidJson, fun _ => .httpError⟩

/-- A run whose release endpoint offers a single asset named
`"Bar.zip"`. -/
def wNoMatchAssets : World :=
  ⟨fun _ => .ok (.withAssets [⟨some "Bar.zip".data, some "u".data⟩]),
    fun _ => .httpError⟩

/-- A run whose zip downloads all succeed with a one-file archive. -/
def wZipOk : World :=
  ⟨fun _ => .httpError 500, fun _ => .ok (.valid ["f".data])⟩

/-- A run whose zip downloads all succeed with a valid but EMPTY
archive. -/
def wEmptyZip : World :=
  ⟨fun _ => .httpError 500, fun _ => .ok (.valid [])⟩

theorem exact_name_gives_version_name (m n : Str)
    (h : isExactAssetName m n = true) : isAssetNameWithVersion m n = true := by
  have hn : n = m ++ ".zip".data := by simpa [isExactAssetName] using h
  subst hn
  have e : (".".data : Str) ++ "zip".data = ".zip".data := by decide
  have hsplit : m ++ ".zip".data = (m ++ ".".data) ++ "zip".data := by
    rw [List.append_assoc, e]
  have h1 : (m ++ ".".data) <+: m ++ ".zip".data := by
    rw [hsplit]; exact List.prefix_append _ _
  have h2 : ((".zip".data : Str)) <:+ m ++ ".zip".data := List.suffix_append _ _
  simp [isAssetNameWithVersion, List.isPrefixOf_iff_prefix,
    List.isSuffixOf_iff_suffix, h1, h2]

/-- C9: the exact-name condition `name == modName ++ ".zip"` implies the
versioned-name condition (`name` starts with `modName ++ "."` and ends
with `".zip"`), so the two-disjunct acceptance test of line 80 is
extensionally equal to the versioned-name condition alone. -/
theorem matchesAsset_eq_versionOnly (m n : Str) :
    (isExactAssetName m n = true → isAssetNameWithVersion m n = true) ∧
    matchesAsset m n = isAssetNameWithVersion m n := by
  refine ⟨exact_name_gives_version_name m n, ?_⟩
  unfold matchesAsset
  cases hex : isExactAssetName m n
  · simp
  · simp [exact_name_gives_version_name m n hex]

/-- Witness for the hypothesis of `matchesAsset_eq_versionOnly`. -/
theorem matchesAsset_eq_versionOnly_witness :
    isAssetNameWithVersion "Foo".data "Foo.zip".data = true :=
  (matchesAsset_eq_versionOnly "Foo".data "Foo.zip".data).1 (by decide)

theorem assetSearch_toRaw (m : Str) (l : List Asset) (acc : Option Str) :
    assetSearch m (l.map Asset.toRaw) acc =
      .ok (((l.reverse.find? fun a => matchesAsset m a.name).map
        (fun a => a.browser_download_url)).or acc) := by
  induction l generalizing acc with
  | nil => rfl
  | cons a l ih =>
    simp only [List.map_cons, assetSearch, Asset.toRaw, List.reverse_cons,
      List.find?_append]
    cases hm : matchesAsset m a.name with
    | true =>
      simp only [hm, if_true, ih]
      cases l.reverse.find? fun a => matchesAsset m a.name <;>
        simp [List.find?, hm]
    | false =>
      simp only [hm, if_false, ih]
      cases l.reverse.find? fun a => matchesAsset m a.name <;>
        simp [List.find?, hm]

/-- C1: on a well-formed asset list, the asset-selection loop of
`installLatestGitHubRelease` (lines 69-81) yields `some` URL exactly when
some asset's name equals `modName ++ ".zip"` or both starts with
`modName ++ "."` and ends with `".zip"`; and the URL it yields is the
`browser_download_url` of the LAST matching asset in listing order
(the first match of the reversed list). -/
theorem assetSelection_laws (m : Str) (assets : List Asset) :
    (assetSearch m (assets.map Asset.toRaw) none =
      .ok ((assets.reverse.find? fun a =>
          isExactAssetName m a.name || isAssetNameWithVersion m a.name).map
        (fun a => a.browser_download_url))) ∧
    ((∃ a ∈ assets, a.name = m ++ ".zip".data ∨
        ((m ++ ".".data).isPrefixOf a.name = true ∧
          (".zip".data : Str).isSuffixOf a.name = true)) ↔
      ∃ url, assetSearch m (assets.map Asset.toRaw) none = .ok (some url)) := by
  have heq := assetSearch_toRaw m assets none
  constructor
  · simpa [matchesAsset] using heq
  · rw [heq]
    constructor
    · rintro ⟨a, ha, hmatch⟩
      have hp : matchesAsset m a.name = true := by
        simp only [matchesAsset, isExactAssetName, isAssetNameWithVersion,
          Bool.or_eq_true, Bool.and_eq_true, beq_iff_eq]
        exact hmatch
      have hsome : (assets.reverse.find? fun a => matchesAsset m a.name).isSome := by
        rw [List.find?_isSome]
        exact ⟨a, by simpa using ha, hp⟩
      rcases Option.isSome_iff_exists.mp hsome with ⟨b, hb⟩
      exact ⟨b.browser_download_url, by simp [hb]⟩
    · rintro ⟨url, hurl⟩
      have : ((assets.reverse.find? fun a => matchesAsset m a.name).map
          (fun a => a.browser_download_url)).or none = some url := by
        simpa using hurl
      rcases hfind : assets.reverse.find? fun a => matchesAsset m a.name with
        _ | b
      · rw [hfind] at this; simp at this
      · have hb := List.find?_some hfind
        have hmem : b ∈ assets := by
          have := List.mem_of_find?_eq_some hfind
          simpa using this
        refine ⟨b, hmem, ?_⟩
        simpa [matchesAsset, isExactAssetName, isAssetNameWithVersion,
          Bool.or_eq_true, Bool.and_eq_true, beq_iff_eq] using hb

theorem runSeq_cons_err (f : Str → Str → Run) (m x : Str)
    (rest : List (Str × Str)) (evs : List Event) (e : Exc)
    (hf : f m x = (evs, some e)) :
    runSeq f ((m, x) :: rest) = (evs, some e) := by
  simp [runSeq, hf]

theorem runSeq_cons_ok (f : Str → Str → Run) (m x : Str)
    (rest : List (Str × Str)) (evs : List Event)
    (hf : f m x = (evs, none)) :
    runSeq f ((m, x) :: rest) =
      (evs ++ (runSeq f rest).1, (runSeq f rest).2) := by
  rcases hr : runSeq f rest with ⟨evs2, exc2⟩
  simp [runSeq, hf, hr]

theorem runSeq_entry (f : Str → Str → Run) (l : List (Str × Str))
    (evs : List Event) (hnone : runSeq f l = (evs, none)) (m x : Str)
    (hmx : (m, x) ∈ l) :
    ∃ e2, f m x = (e2, none) ∧ ∀ ev ∈ e2, ev ∈ evs := by
  induction l generalizing evs with
  | nil => cases hmx
  | cons p rest ih =>
    rcases p with ⟨m0, x0⟩
    rcases hf : f m0 x0 with ⟨e0, exc0⟩
    cases exc0 with
    | some err =>
      rw [runSeq_cons_err f m0 x0 rest e0 err hf] at hnone
      cases hnone
    | none =>
      rw [runSeq_cons_ok f m0 x0 rest e0 hf] at hnone
      rcases hr : runSeq f rest with ⟨evs2, exc2⟩
      rw [hr] at hnone
      simp only [Prod.mk.injEq] at hnone
      obtain ⟨h1, h2⟩ := hnone
      subst h2
      rcases List.mem_cons.mp hmx with hp | hrest
      · obtain ⟨rfl, rfl⟩ := Prod.mk.injEq .. ▸ hp
        refine ⟨e0, hf, fun ev hev => ?_⟩
        rw [← h1]
        exact List.mem_append.mpr (Or.inl hev)
      · obtain ⟨e2, he2, hsub⟩ := ih evs2 hr hrest
        refine ⟨e2, he2, fun ev hev => ?_⟩
        rw [← h1]
        exact List.mem_append.mpr (Or.inr (hsub ev hev))

theorem downloading_log_mem (w : World) (b v : Str) :
    Event.logLine b downloadingMsg ∈ (installFromZipUrl w b v).1 := by
  cases hd : w.download v with
  | ok zip => cases zip <;> simp [installFromZipUrl, hd]
  | httpError => simp [installFromZipUrl, hd]
  | transportError => simp [installFromZipUrl, hd]

theorem runSeq_head_mem (f : Str → Str → Run) (m x : Str)
    (rest : List (Str × Str)) (e : Event) (he : e ∈ (f m x).1) :
    e ∈ (runSeq f ((m, x) :: rest)).1 := by
  rcases hf : f m x with ⟨evs, exc⟩
  rw [hf] at he
  cases exc with
  | some err => rw [runSeq_cons_err f m x rest evs err hf]; exact he
  | none =>
    rw [runSeq_cons_ok f m x rest evs hf]
    exact List.mem_append.mpr (Or.inl he)

theorem main_mirror_only (w : World) (mm : List (Str × Str)) :
    Script.main w (.ok ⟨some [], some mm⟩) =
      ([.printLine (mm.map Prod.fst), .wipeModsDir] ++
        (runSeq (fun m u => installFromZipUrl w m u) mm).1,
        (runSeq (fun m u => installFromZipUrl w m u) mm).2) := by
  rcases hr : runSeq (fun m u => installFromZipUrl w m u) mm with ⟨evs2, exc2⟩
  simp [Script.main, runSeq, hr]

theorem installFromZipUrl_httpError_eq (w : World) (m url : Str)
    (h : w.download url = .httpError) :
    installFromZipUrl w m url =
      ([.logLine m downloadingMsg, .getZip url,
        .logLine m downloadFailMsg, .logLine m extractFailMsg], none) := by
  simp [installFromZipUrl, h]

/-- C4: when the download of `zipUrl` fails with an `HTTPError`, the
installer logs the download failure and DOES NOT return early: it
continues into the extraction `try`, whose attempt on the never-created
file fails and is logged in turn; the whole call still returns normally
(no exception escapes). -/
theorem download_httpError_continues_to_extract (w : World) (m url : Str)
    (h : w.download url = .httpError) :
    installFromZipUrl w m url =
      ([.logLine m downloadingMsg, .getZip url,
        .logLine m downloadFailMsg, .logLine m extractFailMsg], none) :=
  installFromZipUrl_httpError_eq w m url h

/-- Witness for `download_httpError_continues_to_extract` at a concrete
world and mod. -/
theorem download_httpError_continues_witness :
    installFromZipUrl wHttpDownloadFail "A".data "u".data =
      ([.logLine "A".data downloadingMsg, .getZip "u".data,
        .logLine "A".data downloadFailMsg, .logLine "A".data extractFailMsg],
        none) :=
  download_httpError_continues_to_extract wHttpDownloadFail "A".data "u".data
    rfl

/-- C3 (amended): a latest-release query answered with an `HTTPError`
is handled — 404 logs the "no longer hosting releases" message, any
other HTTP status logs the "unable to reach GitHub" message, and in both
cases the resolver returns normally after exactly one query, installing
nothing; but a transport error (a non-`HTTPError` exception) is NOT
caught: it escapes the resolver after the single query, uncaught and
unlogged. -/
theorem releaseQuery_failure_behaviour (w : World) (m repo : Str) :
    (∀ c, w.release (releaseUrlOf repo) = .httpError c →
      installLatestGitHubRelease w m repo =
        ([.getRelease (releaseUrlOf repo),
          .logLine m (if c == 404 then msg404 else unreachableMsg)], none)) ∧
    (w.release (releaseUrlOf repo) = .transportError →
      installLatestGitHubRelease w m repo =
        ([.getRelease (releaseUrlOf repo)], some .urlError)) := by
  constructor
  · intro c h
    cases hc : c == 404 <;> simp [installLatestGitHubRelease, h, hc]
  · intro h
    simp [installLatestGitHubRelease, h]

/-- Witness for `releaseQuery_failure_behaviour` at a concrete 404
world. -/
theorem releaseQuery_failure_behaviour_witness :
    installLatestGitHubRelease wRelease404 "A".data "o/r".data =
      ([.getRelease (releaseUrlOf "o/r".data),
        .logLine "A".data (if 404 == 404 then msg404 else unreachableMsg)],
        none) :=
  (releaseQuery_failure_behaviour wRelease404 "A".data "o/r".data).1 404 rfl

/-- C3 counterexample: on a transport error the claim's promised
behaviour — log "unable to reach host" and return with no install — does
not happen: nothing is logged and the exception escapes the resolver. -/
theorem releaseQuery_transport_not_logged :
    (installLatestGitHubRelease wReleaseTransportFail "A".data
        "o/r".data).2 ≠ none ∧
    Event.logLine "A".data unreachableMsg ∉
      (installLatestGitHubRelease wReleaseTransportFail "A".data
        "o/r".data).1 := by
  decide

/-- C2 (amended): in `installFromZipUrl`, a download failing with an
`HTTPError` is logged and swallowed (the call returns normally, and in a
run the subsequent manifest entries are still processed), and any
successful-download outcome also returns normally (extraction failures
are swallowed by the bare `except`); but a download failing with a
transport error (a non-`HTTPError` exception) escapes the call. -/
theorem installer_failure_behaviour (w : World) (m url : Str) :
    (w.download url = .httpError →
      (installFromZipUrl w m url).2 = none ∧
      Event.logLine m downloadFailMsg ∈ (installFromZipUrl w m url).1) ∧
    (∀ z, w.download url = .ok z → (installFromZipUrl w m url).2 = none) ∧
    (w.download url = .transportError →
      (installFromZipUrl w m url).2 = some .urlError) ∧
    (∀ b v mm, w.download url = .httpError →
      Event.logLine b downloadingMsg ∈
        (Script.main w (.ok ⟨some [], some ((m, url) :: (b, v) :: mm)⟩)).1) := by
  refine ⟨?_, ?_, ?_, ?_⟩
  · intro h
    rw [installFromZipUrl_httpError_eq w m url h]
    simp
  · intro z h
    cases z <;> simp [installFromZipUrl, h]
  · intro h
    simp [installFromZipUrl, h]
  · intro b v mm h
    have hmem : Event.logLine b downloadingMsg ∈
        (runSeq (fun m u => installFromZipUrl w m u)
          ((m, url) :: (b, v) :: mm)).1 := by
      rw [runSeq_cons_ok (fun m u => installFromZipUrl w m u) m url
        ((b, v) :: mm) _ (installFromZipUrl_httpError_eq w m url h)]
      exact List.mem_append.mpr (Or.inr
        (runSeq_head_mem (fun m u => installFromZipUrl w m u) b v mm _
          (downloading_log_mem w b v)))
    rw [main_mirror_only w ((m, url) :: (b, v) :: mm)]
    exact List.mem_append.mpr (Or.inr hmem)

/-- Witness for `installer_failure_behaviour` at a concrete world with
`HTTPError` downloads: the failure is logged, swallowed, and the next
manifest entry is still processed. -/
theorem installer_failure_behaviour_witness :
    Event.logLine "B".data downloadingMsg ∈
      (Script.main wHttpDownloadFail
        (.ok ⟨some [], some [("A".data, "u1".data), ("B".data, "u2".data)]⟩)).1 :=
  (installer_failure_behaviour wHttpDownloadFail "A".data "u1".data).2.2.2
    "B".data "u2".data [] rfl

/-- C2 counterexample: with a transport error on the first mirror mod's
download, the exception is NOT swallowed — it escapes `main` — and the
second manifest entry is never processed. -/
theorem download_transport_crashes_run :
    (Script.main wDownloadTransportFail
        (.ok ⟨some [], some [("A".data, "u1".data), ("B".data, "u2".data)]⟩)).2 =
      some .urlError ∧
    Event.logLine "B".data downloadingMsg ∉
      (Script.main wDownloadTransportFail
        (.ok ⟨some [], some [("A".data, "u1".data), ("B".data, "u2".data)]⟩)).1 := by
  decide

/-- C7: a missing manifest file, a malformed manifest document, or a
manifest lacking `githubReleaseMods` or `mirrorMods` makes `main` raise
before it emits any event: nothing is printed, the managed directory is
not touched, and no mod install is attempted.  The escaping exception is
uncaught (Python then terminates the process with a non-zero status). -/
theorem manifest_failure_fatal (w : World) :
    Script.main w .fileMissing = ([], some .fileError) ∧
    Script.main w .parseError = ([], some .yamlError) ∧
    (∀ mm, Script.main w (.ok ⟨none, mm⟩) = ([], some .keyError)) ∧
    (∀ g, Script.main w (.ok ⟨some g, none⟩) = ([], some .keyError)) :=
  ⟨rfl, rfl, fun _ => rfl, fun _ => rfl⟩

theorem assetSearch_no_match (m : Str) (l : List RawAsset) (acc : Option Str)
    (h : ∀ a ∈ l, ∃ n, a.name = some n ∧ matchesAsset m n = false) :
    assetSearch m l acc = .ok acc := by
  induction l generalizing acc with
  | nil => rfl
  | cons a l ih =>
    rcases h a (List.mem_cons_self a l) with ⟨n, hn, hm⟩
    rw [assetSearch, hn]
    simp only [hm]
    simp only [Bool.false_eq_true, if_false]
    exact ih acc fun b hb => h b (List.mem_cons_of_mem a hb)

/-- C8: when the release query succeeds and every asset has a name that
matches neither acceptance rule, the resolver logs the "no expected zip
asset" message and returns normally: no download is requested, no
installer call is made, and replaying the emitted events leaves any
managed-directory state unchanged. -/
theorem noMatch_logs_and_skips (w : World) (m repo : Str)
    (l : List RawAsset) (fs : Fs)
    (h1 : w.release (releaseUrlOf repo) = .ok (.withAssets l))
    (h2 : ∀ a ∈ l, ∃ n, a.name = some n ∧ matchesAsset m n = false) :
    installLatestGitHubRelease w m repo =
      ([.getRelease (releaseUrlOf repo), .logLine m noAssetMsg], none) ∧
    runEvents fs (installLatestGitHubRelease w m repo).1 = fs := by
  have hs := assetSearch_no_match m l none h2
  have hmain : installLatestGitHubRelease w m repo =
      ([.getRelease (releaseUrlOf repo), .logLine m noAssetMsg], none) := by
    simp [installLatestGitHubRelease, h1, hs]
  exact ⟨hmain, by rw [hmain]; rfl⟩

/-- Witness for `noMatch_logs_and_skips` at a concrete world offering
only a `"Bar.zip"` asset to mod `"Foo"`. -/
theorem noMatch_logs_and_skips_witness :
    installLatestGitHubRelease wNoMatchAssets "Foo".data "o/r".data =
      ([.getRelease (releaseUrlOf "o/r".data),
        .logLine "Foo".data noAssetMsg], none) :=
  (noMatch_logs_and_skips wNoMatchAssets "Foo".data "o/r".data
    [⟨some "Bar.zip".data, some "u".data⟩] [] rfl (by decide)).1

theorem main_github_err (w : World) (g mm : List (Str × Str))
    (evs : List Event) (e : Exc)
    (h : runSeq (fun m r => installLatestGitHubRelease w m r) g =
      (evs, some e)) :
    Script.main w (.ok ⟨some g, some mm⟩) =
      ([.printLine (g.map Prod.fst ++ mm.map Prod.fst), .wipeModsDir] ++ evs,
        some e) := by
  simp [Script.main, h]

theorem assetSearch_missing_name (m : Str) (l : List RawAsset)
    (acc : Option Str) (h : ∃ a ∈ l, a.name = none) :
    assetSearch m l acc = .error .keyError := by
  induction l generalizing acc with
  | nil => rcases h with ⟨a, ha, _⟩; cases ha
  | cons a l ih =>
    rcases h with ⟨b, hb, hbn⟩
    rcases List.mem_cons.mp hb with rfl | hbl
    · rw [assetSearch, hbn]
    · cases hn : a.name with
      | none => rw [assetSearch, hn]
      | some nm =>
        rw [assetSearch, hn]
        cases hm : matchesAsset m nm with
        | false =>
          simp only [hm, Bool.false_eq_true, if_false]
          exact ih acc ⟨b, hbl, hbn⟩
        | true =>
          simp only [hm, if_true]
          cases hu : a.browser_download_url with
          | none => rfl
          | some u => exact ih (some u) ⟨b, hbl, hbn⟩

/-- C10: when the latest-release request itself succeeds but the body is
not valid JSON, or the parsed value has no `"assets"` key, or some asset
entry has no `"name"` key, the resolver raises an uncaught exception —
unlike the logged-and-swallowed failure modes — and, placed in a run,
that exception escapes `main` and ends the whole run. -/
theorem unparsable_release_uncaught (w : World) (m repo : Str) :
    (w.release (releaseUrlOf repo) = .ok .invalidJson →
      installLatestGitHubRelease w m repo =
        ([.getRelease (releaseUrlOf repo)], some .jsonDecodeError)) ∧
    (w.release (releaseUrlOf repo) = .ok .missingAssets →
      installLatestGitHubRelease w m repo =
        ([.getRelease (releaseUrlOf repo)], some .keyError)) ∧
    (∀ l, w.release (releaseUrlOf repo) = .ok (.withAssets l) →
      (∃ a ∈ l, a.name = none) →
      (installLatestGitHubRelease w m repo).2 = some .keyError) ∧
    (∀ g mm, w.release (releaseUrlOf repo) = .ok .invalidJson →
      (Script.main w (.ok ⟨some ((m, repo) :: g), some mm⟩)).2 =
        some .jsonDecodeError) := by
  refine ⟨?_, ?_, ?_, ?_⟩
  · intro h
    simp [installLatestGitHubRelease, h]
  · intro h
    simp [installLatestGitHubRelease, h]
  · intro l h hmiss
    simp [installLatestGitHubRelease, h, assetSearch_missing_name m l none hmiss]
  · intro g mm h
    have hres : installLatestGitHubRelease w m repo =
        ([.getRelease (releaseUrlOf repo)], some .jsonDecodeError) := by
      simp [installLatestGitHubRelease, h]
    rw [main_github_err w ((m, repo) :: g) mm _ _
      (runSeq_cons_err (fun m r => installLatestGitHubRelease w m r) m repo
        g _ _ hres)]

/-- Witness for `unparsable_release_uncaught` at a concrete world whose
release endpoint answers with a non-JSON body. -/
theorem unparsable_release_uncaught_witness :
    installLatestGitHubRelease wInvalidJson "A".data "o/r".data =
      ([.getRelease (releaseUrlOf "o/r".data)], some .jsonDecodeError) :=
  (unparsable_release_uncaught wInvalidJson "A".data "o/r".data).1 rfl

theorem installFromZipUrl_installPhase (w : World) (m u : Str) :
    ∀ e ∈ (installFromZipUrl w m u).1, installPhaseEvent e = true := by
  cases hd : w.download u with
  | ok zip => cases zip <;> simp [installFromZipUrl, hd, installPhaseEvent]
  | httpError => simp [installFromZipUrl, hd, installPhaseEvent]
  | transportError => simp [installFromZipUrl, hd, installPhaseEvent]

theorem installLatestGitHubRelease_installPhase (w : World) (m repo : Str) :
    ∀ e ∈ (installLatestGitHubRelease w m repo).1,
      installPhaseEvent e = true := by
  cases hr : w.release (releaseUrlOf repo) with
  | httpError c =>
    cases hc : c == 404 <;>
      simp [installLatestGitHubRelease, hr, hc, installPhaseEvent]
  | transportError => simp [installLatestGitHubRelease, hr, installPhaseEvent]
  | ok body =>
    cases body with
    | invalidJson => simp [installLatestGitHubRelease, hr, installPhaseEvent]
    | missingAssets => simp [installLatestGitHubRelease, hr, installPhaseEvent]
    | withAssets l =>
      rcases hs : assetSearch m l none with e | acc
      · simp [installLatestGitHubRelease, hr, hs, installPhaseEvent]
      · cases acc with
        | none => simp [installLatestGitHubRelease, hr, hs, installPhaseEvent]
        | some url =>
          rcases hz : installFromZipUrl w m url with ⟨evs1, exc1⟩
          simp only [installLatestGitHubRelease, hr, hs, hz]
          intro e he
          rcases List.mem_cons.mp he with rfl | h1
          · rfl
          · have := installFromZipUrl_installPhase w m url e
            rw [hz] at this
            exact this h1

theorem runSeq_installPhase (f : Str → Str → Run)
    (hf : ∀ m x e, e ∈ (f m x).1 → installPhaseEvent e = true)
    (l : List (Str × Str)) :
    ∀ e ∈ (runSeq f l).1, installPhaseEvent e = true := by
  induction l with
  | nil => intro e he; cases he
  | cons p rest ih =>
    rcases p with ⟨m, x⟩
    rcases hfm : f m x with ⟨evs, exc⟩
    intro e he
    cases exc with
    | some err =>
      rw [runSeq_cons_err f m x rest evs err hfm] at he
      exact hf m x e (by rw [hfm]; exact he)
    | none =>
      rw [runSeq_cons_ok f m x rest evs hfm] at he
      rcases List.mem_append.mp he with h1 | h2
      · exact hf m x e (by rw [hfm]; exact h1)
      · exact ih e h2

theorem main_github_ok (w : World) (g mm : List (Str × Str))
    (evs1 : List Event)
    (h : runSeq (fun m r => installLatestGitHubRelease w m r) g =
      (evs1, none)) :
    Script.main w (.ok ⟨some g, some mm⟩) =
      ([.printLine (g.map Prod.fst ++ mm.map Prod.fst), .wipeModsDir] ++
        evs1 ++ (runSeq (fun m u => installFromZipUrl w m u) mm).1,
        (runSeq (fun m u => installFromZipUrl w m u) mm).2) := by
  rcases hm2 : runSeq (fun m u => installFromZipUrl w m u) mm with ⟨evs2, exc2⟩
  simp [Script.main, h, hm2]

theorem main_trace_shape (w : World) (g mm : List (Str × Str)) :
    ∃ rest, (Script.main w (.ok ⟨some g, some mm⟩)).1 =
      Event.printLine (g.map Prod.fst ++ mm.map Prod.fst) ::
        Event.wipeModsDir :: rest ∧
      ∀ e ∈ rest, installPhaseEvent e = true := by
  have hgall := runSeq_installPhase (fun m r => installLatestGitHubRelease w m r)
    (fun m x e he => installLatestGitHubRelease_installPhase w m x e he) g
  rcases hg : runSeq (fun m r => installLatestGitHubRelease w m r) g with
    ⟨evs1, exc1⟩
  rw [hg] at hgall
  cases exc1 with
  | some e =>
    refine ⟨evs1, ?_, hgall⟩
    rw [main_github_err w g mm evs1 e hg]
    rfl
  | none =>
    have hmall := runSeq_installPhase (fun m u => installFromZipUrl w m u)
      (fun m x e he => installFromZipUrl_installPhase w m x e he) mm
    refine ⟨evs1 ++ (runSeq (fun m u => installFromZipUrl w m u) mm).1, ?_, ?_⟩
    · rw [main_github_ok w g mm evs1 hg]
      simp
    · intro e he
      rcases List.mem_append.mp he with h1 | h2
      · exact hgall e h1
      · exact hmall e h2

/-- C6: in every run that reaches orchestration (the manifest loaded and
both keys present), the trace starts with the mod-list print and then
the destructive reset of the managed mods root, every later event
belongs to the install phase (so the reset completes before any install
of any mod begins), and replaying the trace up to and including the
reset maps EVERY pre-existing managed-directory state to the empty one —
no pre-existing content survives into the install phase. -/
theorem wipe_precedes_installs (w : World) (g mm : List (Str × Str)) (fs : Fs) :
    ∃ rest, (Script.main w (.ok ⟨some g, some mm⟩)).1 =
        Event.printLine (g.map Prod.fst ++ mm.map Prod.fst) ::
          Event.wipeModsDir :: rest ∧
      (∀ e ∈ rest, installPhaseEvent e = true) ∧
      runEvents fs [Event.printLine (g.map Prod.fst ++ mm.map Prod.fst),
        Event.wipeModsDir] = [] := by
  obtain ⟨rest, h1, h2⟩ := main_trace_shape w g mm
  exact ⟨rest, h1, h2, rfl⟩

/-- Witness for `wipe_precedes_installs` at a concrete world, manifest
and non-empty pre-existing managed directory. -/
theorem wipe_precedes_installs_witness :
    ∃ rest, (Script.main wZipOk
        (.ok ⟨some [], some [("A".data, "u".data)]⟩)).1 =
        Event.printLine (([] : List (Str × Str)).map Prod.fst ++
            [("A".data, "u".data)].map Prod.fst) ::
          Event.wipeModsDir :: rest ∧
      (∀ e ∈ rest, installPhaseEvent e = true) ∧
      runEvents [("Old".data, ["x".data])]
        [Event.printLine (([] : List (Str × Str)).map Prod.fst ++
            [("A".data, "u".data)].map Prod.fst),
          Event.wipeModsDir] = [] :=
  wipe_precedes_installs wZipOk [] [("A".data, "u".data)]
    [("Old".data, ["x".data])]

theorem modDir_addFiles_same (fs : Fs) (m : Str) (files : List Str) :
    modDir (addFiles fs m files) m = some ((modDir fs m).getD [] ++ files) := by
  induction fs with
  | nil => simp [addFiles, modDir]
  | cons p rest ih =>
    rcases p with ⟨m0, fs0⟩
    cases hb : m0 == m with
    | true => simp [addFiles, modDir, hb]
    | false => simp [addFiles, modDir, hb, ih]

theorem modDir_addFiles_ne (fs : Fs) (mAdd m : Str) (files : List Str)
    (h : (mAdd == m) = false) :
    modDir (addFiles fs mAdd files) m = modDir fs m := by
  induction fs with
  | nil => simp [addFiles, modDir, h]
  | cons p rest ih =>
    rcases p with ⟨m0, fs0⟩
    cases hb : m0 == mAdd with
    | true =>
      have hm0 : m0 = mAdd := eq_of_beq hb
      subst hm0
      simp [addFiles, modDir, h]
    | false =>
      cases hbm : m0 == m with
      | true => simp [addFiles, modDir, hb, hbm]
      | false => simp [addFiles, modDir, hb, hbm, ih]

theorem populated_addFiles_self (fs : Fs) (m : Str) (files : List Str)
    (h : files ≠ []) : populated (addFiles fs m files) m = true := by
  rw [populated, modDir_addFiles_same]
  rcases files with _ | ⟨f, fl⟩
  · exact absurd rfl h
  · rcases (modDir fs m).getD [] with _ | ⟨y, yl⟩ <;> simp

theorem populated_preserved_addFiles (fs : Fs) (m mAdd : Str)
    (files : List Str) (h : populated fs m = true) :
    populated (addFiles fs mAdd files) m = true := by
  cases hb : mAdd == m with
  | true =>
    have hm : mAdd = m := eq_of_beq hb
    subst hm
    rw [populated, modDir_addFiles_same]
    rw [populated] at h
    rcases hd : modDir fs mAdd with _ | x
    · rw [hd] at h; simp at h
    · rw [hd] at h
      rcases x with _ | ⟨z, zl⟩
      · simp at h
      · simp
  | false =>
    rw [populated, modDir_addFiles_ne fs mAdd m files hb]
    exact h

theorem populated_runEvents (evs : List Event) (m : Str) :
    Event.wipeModsDir ∉ evs → ∀ fs : Fs, populated fs m = true →
    populated (runEvents fs evs) m = true := by
  induction evs with
  | nil => intro _ fs hp; exact hp
  | cons e rest ih =>
    intro hw fs hp
    have hw' : Event.wipeModsDir ∉ rest :=
      fun hmem => hw (List.mem_cons_of_mem e hmem)
    have he : e ≠ Event.wipeModsDir :=
      fun heq => hw (heq ▸ List.mem_cons_self e rest)
    show populated (runEvents (applyEvent fs e) rest) m = true
    cases e with
    | wipeModsDir => exact absurd rfl he
    | extractInto mAdd files =>
      exact ih hw' (addFiles fs mAdd files)
        (populated_preserved_addFiles fs m mAdd files hp)
    | logLine a b => exact ih hw' fs hp
    | printLine a => exact ih hw' fs hp
    | getRelease a => exact ih hw' fs hp
    | getZip a => exact ih hw' fs hp

theorem extract_mem_populated (m : Str) (files : List Str) (hne : files ≠ [])
    (evs : List Event) :
    Event.extractInto m files ∈ evs → Event.wipeModsDir ∉ evs → ∀ fs : Fs,
    populated (runEvents fs evs) m = true := by
  induction evs with
  | nil => intro hmem; cases hmem
  | cons e rest ih =>
    intro hmem hw fs
    have hw' : Event.wipeModsDir ∉ rest :=
      fun hmem2 => hw (List.mem_cons_of_mem e hmem2)
    rcases List.mem_cons.mp hmem with heq | hrest
    · rw [← heq]
      show populated (runEvents (addFiles fs m files) rest) m = true
      exact populated_runEvents rest m hw' (addFiles fs m files)
        (populated_addFiles_self fs m files hne)
    · show populated (runEvents (applyEvent fs e) rest) m = true
      exact ih hrest hw' (applyEvent fs e)

theorem hasFailureLog_of_mem (evs : List Event) (m msg : Str)
    (hmem : Event.logLine m msg ∈ evs)
    (hmsg : msg ∈ failureMsgs) :
    hasFailureLog evs m = true := by
  apply List.any_eq_true.mpr
  exact ⟨Event.logLine m msg, hmem, by simp [hmsg]⟩

theorem goodOutcome_mono (m : Str) (e2 evs : List Event)
    (hsub : ∀ ev ∈ e2, ev ∈ evs) (h : goodOutcome m e2) :
    goodOutcome m evs := by
  rcases h with ⟨files, hne, hm⟩ | hf | hm
  · exact Or.inl ⟨files, hne, hsub _ hm⟩
  · rcases List.any_eq_true.mp hf with ⟨ev, hev, hp⟩
    exact Or.inr (Or.inl (List.any_eq_true.mpr ⟨ev, hsub _ hev, hp⟩))
  · exact Or.inr (Or.inr (hsub _ hm))

theorem installFromZipUrl_goodOutcome (w : World) (m u : Str)
    (evs : List Event) (h : installFromZipUrl w m u = (evs, none)) :
    goodOutcome m evs := by
  cases hd : w.download u with
  | transportError => simp [installFromZipUrl, hd] at h
  | httpError =>
    simp [installFromZipUrl, hd] at h
    refine Or.inr (Or.inl (hasFailureLog_of_mem evs m downloadFailMsg ?_
      (by decide)))
    rw [← h]
    simp
  | ok zip =>
    cases zip with
    | corrupt =>
      simp [installFromZipUrl, hd] at h
      refine Or.inr (Or.inl (hasFailureLog_of_mem evs m extractFailMsg ?_
        (by decide)))
      rw [← h]
      simp
    | valid files =>
      simp [installFromZipUrl, hd] at h
      cases files with
      | nil =>
        refine Or.inr (Or.inr ?_)
        rw [← h]
        simp
      | cons f fl =>
        refine Or.inl ⟨f :: fl, List.cons_ne_nil f fl, ?_⟩
        rw [← h]
        simp

theorem installLatestGitHubRelease_goodOutcome (w : World) (m repo : Str)
    (evs : List Event)
    (h : installLatestGitHubRelease w m repo = (evs, none)) :
    goodOutcome m evs := by
  cases hr : w.release (releaseUrlOf repo) with
  | transportError => simp [installLatestGitHubRelease, hr] at h
  | httpError c =>
    cases hc : c == 404 with
    | true =>
      simp [installLatestGitHubRelease, hr, hc] at h
      refine Or.inr (Or.inl (hasFailureLog_of_mem evs m msg404 ?_ (by decide)))
      rw [← h]
      simp
    | false =>
      simp [installLatestGitHubRelease, hr, hc] at h
      refine Or.inr (Or.inl (hasFailureLog_of_mem evs m unreachableMsg ?_
        (by decide)))
      rw [← h]
      simp
  | ok body =>
    cases body with
    | invalidJson => simp [installLatestGitHubRelease, hr] at h
    | missingAssets => simp [installLatestGitHubRelease, hr] at h
    | withAssets l =>
      rcases hs : assetSearch m l none with e | acc
      · simp [installLatestGitHubRelease, hr, hs] at h
      · cases acc with
        | none =>
          simp [installLatestGitHubRelease, hr, hs] at h
          refine Or.inr (Or.inl (hasFailureLog_of_mem evs m noAssetMsg ?_
            (by decide)))
          rw [← h]
          simp
        | some url =>
          rcases hz : installFromZipUrl w m url with ⟨evs1, exc1⟩
          simp [installLatestGitHubRelease, hr, hs, hz] at h
          obtain ⟨h1, h2⟩ := h
          have hgood := installFromZipUrl_goodOutcome w m url evs1
            (by rw [hz, h2])
          refine goodOutcome_mono m evs1 evs ?_ hgood
          intro ev hev
          rw [← h1]
          simp [hev]

/-- C5 (amended): for every mod name in either manifest mapping, after a
run that completes without a fatal error, either a populated
installation directory exists for that mod, or a failure log line was
emitted for it, or — the one silent case — the mod's archive was
downloaded and extracted successfully but contained no files. -/
theorem run_never_silent (w : World) (g mm : List (Str × Str)) (fs : Fs)
    (m : Str) (evs : List Event)
    (hrun : Script.main w (.ok ⟨some g, some mm⟩) = (evs, none))
    (hm : m ∈ g.map Prod.fst ∨ m ∈ mm.map Prod.fst) :
    populated (runEvents fs evs) m = true ∨
    hasFailureLog evs m = true ∨
    Event.extractInto m [] ∈ evs := by
  rcases hg : runSeq (fun m r => installLatestGitHubRelease w m r) g with
    ⟨evs1, exc1⟩
  cases exc1 with
  | some e =>
    rw [main_github_err w g mm evs1 e hg] at hrun
    simp at hrun
  | none =>
    rcases hm2 : runSeq (fun m u => installFromZipUrl w m u) mm with
      ⟨evs2, exc2⟩
    have hmn := main_github_ok w g mm evs1 hg
    rw [hm2] at hmn
    rw [hmn] at hrun
    simp only [Prod.mk.injEq] at hrun
    obtain ⟨hevs, hexc⟩ := hrun
    subst hexc
    have hevs' : evs =
        Event.printLine (g.map Prod.fst ++ mm.map Prod.fst) ::
          Event.wipeModsDir :: (evs1 ++ evs2) := by
      rw [← hevs]
      simp
    have hgood : goodOutcome m evs := by
      rcases hm with hmg | hmm
      · rcases List.mem_map.mp hmg with ⟨⟨m0, x⟩, hpair, hfst⟩
        have hm0 : m0 = m := hfst
        subst hm0
        obtain ⟨e2, he2, hsub⟩ := runSeq_entry _ g evs1 hg m0 x hpair
        refine goodOutcome_mono m0 e2 evs ?_
          (installLatestGitHubRelease_goodOutcome w m0 x e2 he2)
        intro ev hev
        rw [← hevs]
        simp only [List.append_assoc, List.mem_append]
        exact Or.inr (Or.inl (hsub ev hev))
      · rcases List.mem_map.mp hmm with ⟨⟨m0, x⟩, hpair, hfst⟩
        have hm0 : m0 = m := hfst
        subst hm0
        obtain ⟨e2, he2, hsub⟩ := runSeq_entry _ mm evs2 hm2 m0 x hpair
        refine goodOutcome_mono m0 e2 evs ?_
          (installFromZipUrl_goodOutcome w m0 x e2 he2)
        intro ev hev
        rw [← hevs]
        simp only [List.append_assoc, List.mem_append]
        exact Or.inr (Or.inr (hsub ev hev))
    have hno : Event.wipeModsDir ∉ evs1 ++ evs2 := by
      intro hmem2
      rcases List.mem_append.mp hmem2 with h1 | h2
      · have := runSeq_installPhase
          (fun m r => installLatestGitHubRelease w m r)
          (fun m x e he => installLatestGitHubRelease_installPhase w m x e he)
          g Event.wipeModsDir (by rw [hg]; exact h1)
        simp [installPhaseEvent] at this
      · have := runSeq_installPhase (fun m u => installFromZipUrl w m u)
          (fun m x e he => installFromZipUrl_installPhase w m x e he)
          mm Event.wipeModsDir (by rw [hm2]; exact h2)
        simp [installPhaseEvent] at this
    rcases hgood with ⟨files, hne, hmem⟩ | hf | hmem
    · left
      have hextr : Event.extractInto m files ∈ evs1 ++ evs2 := by
        rw [hevs'] at hmem
        rcases List.mem_cons.mp hmem with h1 | h1
        · exact Event.noConfusion h1
        · rcases List.mem_cons.mp h1 with h2 | h2
          · exact Event.noConfusion h2
          · exact h2
      rw [hevs']
      have hred : runEvents fs
          (Event.printLine (g.map Prod.fst ++ mm.map Prod.fst) ::
            Event.wipeModsDir :: (evs1 ++ evs2)) =
          runEvents [] (evs1 ++ evs2) := rfl
      rw [hred]
      exact extract_mem_populated m files hne (evs1 ++ evs2) hextr hno []
    · right; left; exact hf
    · right; right; exact hmem

/-- Witness for `run_never_silent` at a concrete successful run of one
mirror mod whose archive holds one file. -/
theorem run_never_silent_witness :
    populated (runEvents []
      [Event.printLine ["A".data], Event.wipeModsDir,
        Event.logLine "A".data downloadingMsg, Event.getZip "u".data,
        Event.extractInto "A".data ["f".data],
        Event.logLine "A".data completeMsg]) "A".data = true ∨
    hasFailureLog
      [Event.printLine ["A".data], Event.wipeModsDir,
        Event.logLine "A".data downloadingMsg, Event.getZip "u".data,
        Event.extractInto "A".data ["f".data],
        Event.logLine "A".data completeMsg] "A".data = true ∨
    Event.extractInto "A".data [] ∈
      [Event.printLine ["A".data], Event.wipeModsDir,
        Event.logLine "A".data downloadingMsg, Event.getZip "u".data,
        Event.extractInto "A".data ["f".data],
        Event.logLine "A".data completeMsg] :=
  run_never_silent wZipOk [] [("A".data, "u".data)] [] "A".data
    [Event.printLine ["A".data], Event.wipeModsDir,
      Event.logLine "A".data downloadingMsg, Event.getZip "u".data,
      Event.extractInto "A".data ["f".data],
      Event.logLine "A".data completeMsg]
    (by decide) (Or.inr (by decide))

/-- C5 counterexample: a mirror mod whose URL serves a valid but empty
zip archive.  The run completes without fatal error, the mod's name is
in the manifest, yet no populated installation directory exists for it
and no failure log line was emitted for it — the claimed disjunction
fails as stated. -/
theorem empty_zip_silent_omission :
    (Script.main wEmptyZip
        (.ok ⟨some [], some [("A".data, "u".data)]⟩)).2 = none ∧
    "A".data ∈ [("A".data, "u".data)].map Prod.fst ∧
    populated (runEvents []
        (Script.main wEmptyZip
          (.ok ⟨some [], some [("A".data, "u".data)]⟩)).1) "A".data = false ∧
    hasFailureLog
      (Script.main wEmptyZip
        (.ok ⟨some [], some [("A".data, "u".data)]⟩)).1 "A".data = false := by
  decide
